import Mathlib

set_option maxHeartbeats 1000000

namespace Marple

/-! Association-list primitives.

Python dictionaries preserve insertion order; we model them as association
lists where lookup returns the first binding and assignment updates the
binding in place (or appends a fresh one at the end). -/

/-- Lookup in an association list: the first binding for the key wins. -/
def alookup {α β : Type} [DecidableEq α] : List (α × β) → α → Option β
  | [], _ => none
  | (a, b) :: rest, k => if a = k then some b else alookup rest k

/-- In-place update of an association list, modelling a Python dict
assignment: replace the first binding for the key, else append. -/
def aupdate {α β : Type} [DecidableEq α] : List (α × β) → α → β → List (α × β)
  | [], k, v => [(k, v)]
  | (a, b) :: rest, k, v => if a = k then (k, v) :: rest else (a, b) :: aupdate rest k v

/-! The domain record consumed by the CPEL writer
(collect/writer/write.py). -/

/-- A scheduling event: payload text, track name, 64-bit timestamp and
event-type name (common.datatypes.SchedEvent as used by CpelWriter). -/
structure SchedEvent where
  datum : String
  track : String
  time : Nat
  type : String
deriving DecidableEq, Repr

/-! The CpelWriter model (collect/writer/write.py, class CpelWriter).

The in-memory tables built by CpelWriter.__init__ / _collect are modelled
as one record; the byte output of CpelWriter.write is a List Nat of byte
values.  Strings are written with bytearray(..., "ascii"), modelled by
mapping each character to its code point. -/

/-- FILE_STRING_TABLE_NAME stripped of its trailing NULs, as computed by
CpelWriter.__init__ (rstrip of "FileStrtab" + 54 * "\x00"). -/
def shortTableName : String := "FileStrtab"

/-- The mutable state of a CpelWriter: string table, event-type and track
definition tables, buffered event records and per-section byte lengths. -/
structure WriterState where
  string_table : List (String × Nat)
  string_resource : List Char
  sec1 : Nat
  event_definitions : List (String × Nat)
  event_def_index : Nat
  sec3 : Nat
  track_definitions : List (String × Nat)
  track_def_index : Nat
  sec4 : Nat
  event_data : List (Nat × Nat × Nat × Nat)
  sec5 : Nat
deriving DecidableEq, Repr

/-- CpelWriter.__init__: the string table is pre-seeded with the table-name
placeholder at offset 0 and the format string "%s" at offset 11
(= len "FileStrtab" + 1); section_length[1] = 13. -/
def initWriterState : WriterState :=
  { string_table := [(shortTableName, 0), ("%s", 11)]
    string_resource := shortTableName.data ++ '\x00' :: "%s".data
    sec1 := 13
    event_definitions := []
    event_def_index := 0
    sec3 := 0
    track_definitions := []
    track_def_index := 0
    sec4 := 0
    event_data := []
    sec5 := 0 }

/-- CpelWriter._insert_string: if the string is not yet in the table, record
it at offset section_length[1] + 1, grow the section length by len + 1 and
append "\x00" + string to the string resource. -/
def insertString (st : WriterState) (s : String) : WriterState :=
  if (alookup st.string_table s).isSome then st
  else
    { st with
      string_table := st.string_table ++ [(s, st.sec1 + 1)]
      sec1 := st.sec1 + (s.length + 1)
      string_resource := st.string_resource ++ '\x00' :: s.data }

/-- CpelWriter._insert_object_strings: insert datum, track and type (not
time) into the string table. -/
def insertObjectStrings (st : WriterState) (e : SchedEvent) : WriterState :=
  insertString (insertString (insertString st e.datum) e.track) e.type

/-- CpelWriter._insert_object_event_def: first-seen event types get the next
numeric code; each distinct type grows section 3 by 12 bytes. -/
def insertObjectEventDef (st : WriterState) (e : SchedEvent) : WriterState :=
  if (alookup st.event_definitions e.type).isSome then st
  else
    { st with
      event_definitions := st.event_definitions ++ [(e.type, st.event_def_index)]
      event_def_index := st.event_def_index + 1
      sec3 := st.sec3 + 12 }

/-- CpelWriter._insert_object_track_def: first-seen tracks get the next
numeric id; each distinct track grows section 4 by 8 bytes. -/
def insertObjectTrackDef (st : WriterState) (e : SchedEvent) : WriterState :=
  if (alookup st.track_definitions e.track).isSome then st
  else
    { st with
      track_definitions := st.track_definitions ++ [(e.track, st.track_def_index)]
      track_def_index := st.track_def_index + 1
      sec4 := st.sec4 + 8 }

/-- CpelWriter._insert_object_event_data: append (time, track id, event
code, datum string offset); each event grows section 5 by 20 bytes. -/
def insertObjectEventData (st : WriterState) (e : SchedEvent) : WriterState :=
  { st with
    event_data := st.event_data ++
      [(e.time,
        (alookup st.track_definitions e.track).getD 0,
        (alookup st.event_definitions e.type).getD 0,
        (alookup st.string_table e.datum).getD 0)]
    sec5 := st.sec5 + 20 }

/-- One iteration of the loop in CpelWriter._collect. -/
def processEvent (st : WriterState) (e : SchedEvent) : WriterState :=
  insertObjectEventData (insertObjectTrackDef (insertObjectEventDef (insertObjectStrings st e) e) e) e

/-- CpelWriter._collect: fold the event stream through the insert methods
in input order (no_of_sections becomes 4, written below as a literal). -/
def collectEvents (events : List SchedEvent) : WriterState :=
  events.foldl processEvent initWriterState

/-- Big-endian 2-byte encoding (struct format ">h" on small values). -/
def u16be (n : Nat) : List Nat := [n / 256 % 256, n % 256]

/-- Big-endian 4-byte encoding (struct formats ">i"/">L" on in-range
values). -/
def u32be (n : Nat) : List Nat :=
  [n / 16777216 % 256, n / 65536 % 256, n / 256 % 256, n % 256]

/-- bytearray(s, "ascii"): one byte per character, its code point. -/
def asciiBytes (cs : List Char) : List Nat := cs.map Char.toNat

/-- The 64-byte table-name field written by _write_section_header:
"FileStrtab" followed by 54 NUL bytes. -/
def tableNameBytes : List Nat := asciiBytes shortTableName.data ++ List.replicate 54 0

/-- CpelWriter._write_file_header: endian bit and version in byte 0, a pad
byte, the section count as ">h" and the file date as ">i". -/
def fileHeaderBytes (noSections fileDate : Nat) : List Nat :=
  (0 <<< 7 ||| 1) :: 0 :: (u16be noSections ++ u32be fileDate)

/-- CpelWriter._write_tld: section type and section length as ">ii". -/
def tldBytes (sectionTypeNr sectionLength : Nat) : List Nat :=
  u32be sectionTypeNr ++ u32be sectionLength

/-- CpelWriter._pad_strings: append 4 - (len % 4) NUL characters (note:
a multiple of 4 gets 4 more NULs) and grow section_length[1] to match. -/
def padStrings (st : WriterState) : WriterState :=
  let padnum := 4 - st.string_resource.length % 4
  { st with
    string_resource := st.string_resource ++ List.replicate padnum '\x00'
    sec1 := st.sec1 + padnum }

/-- sorted(d.items(), key=lambda x: x[1]): stable sort by the numeric
value of each binding. -/
def sortByCode (l : List (String × Nat)) : List (String × Nat) :=
  List.insertionSort (fun a b => a.2 ≤ b.2) l

/-- Python string comparison, at-most, on the underlying code-point
sequences: lexicographic with shorter sequences first. -/
def charListLeB : List Char → List Char → Bool
  | [], _ => true
  | _ :: _, [] => false
  | a :: as, b :: bs => if a < b then true else if b < a then false else charListLeB as bs

/-- Python string comparison, at-most (str on code points). -/
def pyStrLeB (a b : String) : Bool := charListLeB a.data b.data

/-- sorted(d.items(), key=lambda x: x[0]): stable sort by the name of each
binding (lexicographic on code points, as in Python). -/
def sortByName (l : List (String × Nat)) : List (String × Nat) :=
  List.insertionSort (fun a b => pyStrLeB a.1 b.1 = true) l

/-- One 12-byte record of _write_event_def: event code, string-table offset
of the type name, string-table offset of "%s". -/
def eventDefRecord (st : WriterState) (d : String × Nat) : List Nat :=
  u32be d.2 ++ u32be ((alookup st.string_table d.1).getD 0)
    ++ u32be ((alookup st.string_table "%s").getD 0)

/-- CpelWriter._write_event_def: the definitions sorted by numeric code
(key=lambda x: x[1]), each as a 12-byte record. -/
def writeEventDef (st : WriterState) : List Nat :=
  (sortByCode st.event_definitions).flatMap (eventDefRecord st)

/-- The event-type definition section as the spec words it: one 12-byte
record per type, in the order the type names sort lexicographically.  This
definition follows the spec text, not the source; it exists only to be
compared against writeEventDef. -/
def writeEventDefSpecOrder (st : WriterState) : List Nat :=
  (sortByName st.event_definitions).flatMap (eventDefRecord st)

/-- One 8-byte record of _write_track_def: track id and string-table offset
of the track name. -/
def trackDefRecord (st : WriterState) (d : String × Nat) : List Nat :=
  u32be d.2 ++ u32be ((alookup st.string_table d.1).getD 0)

/-- CpelWriter._write_track_def: the definitions sorted by track name
(key=lambda x: x[0]), each as an 8-byte record. -/
def writeTrackDef (st : WriterState) : List Nat :=
  (sortByName st.track_definitions).flatMap (trackDefRecord st)

/-- One 20-byte record of _write_events: the two 32-bit halves produced by
_convert_time (time >> 32 and time & (2**32 - 1)), then track id, event
code and datum string offset, each as ">L". -/
def eventRecordBytes (ev : Nat × Nat × Nat × Nat) : List Nat :=
  u32be (ev.1 >>> 32) ++ u32be (ev.1 &&& (2 ^ 32 - 1))
    ++ u32be ev.2.1 ++ u32be ev.2.2.1 ++ u32be ev.2.2.2

/-- CpelWriter._write_events: the buffered event entries, in order. -/
def writeEvents (st : WriterState) : List Nat := st.event_data.flatMap eventRecordBytes

/-- CpelWriter._write_section_header without the event flag: 64-byte table
name then the entry count as ">L". -/
def sectionHeaderBytes (noEntries : Nat) : List Nat := tableNameBytes ++ u32be noEntries

/-- CpelWriter._write_section_header with event_section=True: additionally
the ticks-per-microsecond constant 1000000. -/
def eventSectionHeaderBytes (noEntries : Nat) : List Nat :=
  tableNameBytes ++ u32be noEntries ++ u32be 1000000

/-- CpelWriter.write: header, then the four sections (strings, event
definitions, track definitions, events) each preceded by its
type-length descriptor.  fileDate stands for
int(datetime.now().timestamp()) read inside _write_file_header. -/
def cpelWrite (events : List SchedEvent) (fileDate : Nat) : List Nat :=
  let st := padStrings (collectEvents events)
  fileHeaderBytes 4 fileDate
    ++ tldBytes 1 st.sec1 ++ asciiBytes st.string_resource
    ++ tldBytes 3 (st.sec3 + 68) ++ sectionHeaderBytes st.event_definitions.length
    ++ writeEventDef st
    ++ tldBytes 4 (st.sec4 + 68) ++ sectionHeaderBytes st.track_definitions.length
    ++ writeTrackDef st
    ++ tldBytes 5 (st.sec5 + 72) ++ eventSectionHeaderBytes st.event_data.length
    ++ writeEvents st

/-- The event-record entry that CpelWriter._insert_object_event_data builds
for one event, read off a given table state. -/
def evEntry (st : WriterState) (e : SchedEvent) : Nat × Nat × Nat × Nat :=
  (e.time,
   (alookup st.track_definitions e.track).getD 0,
   (alookup st.event_definitions e.type).getD 0,
   (alookup st.string_table e.datum).getD 0)

/-- All three strings of an event resolve in the string table, and its
track and type resolve in their definition tables. -/
def EventResolved (st : WriterState) (e : SchedEvent) : Prop :=
  (alookup st.string_table e.datum).isSome = true ∧
  (alookup st.string_table e.track).isSome = true ∧
  (alookup st.string_table e.type).isSome = true ∧
  (alookup st.track_definitions e.track).isSome = true ∧
  (alookup st.event_definitions e.type).isSome = true

theorem alookup_nil {α β : Type} [DecidableEq α] (k : α) :
    alookup ([] : List (α × β)) k = none := rfl

theorem alookup_cons {α β : Type} [DecidableEq α] (p : α × β) (l : List (α × β)) (k : α) :
    alookup (p :: l) k = if p.1 = k then some p.2 else alookup l k := by
  cases p
  rfl

theorem alookup_append_some {α β : Type} [DecidableEq α] {l : List (α × β)} {k : α} {v : β}
    (h : alookup l k = some v) (l₂ : List (α × β)) : alookup (l ++ l₂) k = some v := by
  induction l with
  | nil => simp [alookup] at h
  | cons p rest ih =>
    rw [List.cons_append]
    rw [alookup_cons] at h ⊢
    by_cases hpk : p.1 = k
    · rw [if_pos hpk] at h ⊢; exact h
    · rw [if_neg hpk] at h ⊢; exact ih h

theorem alookup_append_none {α β : Type} [DecidableEq α] {l : List (α × β)} {k : α}
    (h : alookup l k = none) (l₂ : List (α × β)) : alookup (l ++ l₂) k = alookup l₂ k := by
  induction l with
  | nil => simp
  | cons p rest ih =>
    rw [List.cons_append]
    rw [alookup_cons] at h ⊢
    by_cases hpk : p.1 = k
    · rw [if_pos hpk] at h; exact absurd h (by simp)
    · rw [if_neg hpk] at h ⊢; exact ih h

theorem alookup_none_not_mem {α β : Type} [DecidableEq α] {l : List (α × β)} {k : α}
    (h : alookup l k = none) : k ∉ l.map Prod.fst := by
  induction l with
  | nil => simp
  | cons p rest ih =>
    rw [alookup_cons] at h
    by_cases hpk : p.1 = k
    · rw [if_pos hpk] at h; exact absurd h (by simp)
    · rw [if_neg hpk] at h
      simp only [List.map_cons, List.mem_cons]
      rintro (rfl | hmem)
      · exact hpk rfl
      · exact ih h hmem

theorem alookup_isSome_append {α β : Type} [DecidableEq α] {l : List (α × β)} {k : α}
    (h : (alookup l k).isSome = true) (l₂ : List (α × β)) :
    (alookup (l ++ l₂) k).isSome = true := by
  obtain ⟨v, hv⟩ := Option.isSome_iff_exists.mp h
  rw [alookup_append_some hv l₂]
  rfl

/-! Table-preservation facts for the individual insert operations. -/

theorem insertString_event_data (st : WriterState) (s : String) :
    (insertString st s).event_data = st.event_data := by
  unfold insertString; split <;> rfl

theorem insertString_evdefs (st : WriterState) (s : String) :
    (insertString st s).event_definitions = st.event_definitions := by
  unfold insertString; split <;> rfl

theorem insertString_trdefs (st : WriterState) (s : String) :
    (insertString st s).track_definitions = st.track_definitions := by
  unfold insertString; split <;> rfl

theorem insertObjectEventDef_strings (st : WriterState) (e : SchedEvent) :
    (insertObjectEventDef st e).string_table = st.string_table := by
  unfold insertObjectEventDef; split <;> rfl

theorem insertObjectEventDef_trdefs (st : WriterState) (e : SchedEvent) :
    (insertObjectEventDef st e).track_definitions = st.track_definitions := by
  unfold insertObjectEventDef; split <;> rfl

theorem insertObjectEventDef_event_data (st : WriterState) (e : SchedEvent) :
    (insertObjectEventDef st e).event_data = st.event_data := by
  unfold insertObjectEventDef; split <;> rfl

theorem insertObjectTrackDef_strings (st : WriterState) (e : SchedEvent) :
    (insertObjectTrackDef st e).string_table = st.string_table := by
  unfold insertObjectTrackDef; split <;> rfl

theorem insertObjectTrackDef_evdefs (st : WriterState) (e : SchedEvent) :
    (insertObjectTrackDef st e).event_definitions = st.event_definitions := by
  unfold insertObjectTrackDef; split <;> rfl

theorem insertObjectTrackDef_event_data (st : WriterState) (e : SchedEvent) :
    (insertObjectTrackDef st e).event_data = st.event_data := by
  unfold insertObjectTrackDef; split <;> rfl

/-! Lookup monotonicity across the insert operations. -/

theorem insertString_string_mono {st : WriterState} {k : String} {v : Nat} (s : String)
    (h : alookup st.string_table k = some v) :
    alookup (insertString st s).string_table k = some v := by
  unfold insertString
  split
  · exact h
  · exact alookup_append_some h _

theorem insertString_self (st : WriterState) (s : String) :
    (alookup (insertString st s).string_table s).isSome = true := by
  unfold insertString
  split
  · assumption
  · have hnone : alookup st.string_table s = none := by
      cases hl : alookup st.string_table s with
      | none => rfl
      | some v => simp_all
    rw [alookup_append_none hnone]
    simp [alookup]

theorem insertObjectEventDef_evdef_mono {st : WriterState} {k : String} {v : Nat}
    (e : SchedEvent) (h : alookup st.event_definitions k = some v) :
    alookup (insertObjectEventDef st e).event_definitions k = some v := by
  unfold insertObjectEventDef
  split
  · exact h
  · exact alookup_append_some h _

theorem insertObjectEventDef_self (st : WriterState) (e : SchedEvent) :
    (alookup (insertObjectEventDef st e).event_definitions e.type).isSome = true := by
  unfold insertObjectEventDef
  split
  · assumption
  · have hnone : alookup st.event_definitions e.type = none := by
      cases hl : alookup st.event_definitions e.type with
      | none => rfl
      | some v => simp_all
    rw [alookup_append_none hnone]
    simp [alookup]

theorem insertObjectTrackDef_trdef_mono {st : WriterState} {k : String} {v : Nat}
    (e : SchedEvent) (h : alookup st.track_definitions k = some v) :
    alookup (insertObjectTrackDef st e).track_definitions k = some v := by
  unfold insertObjectTrackDef
  split
  · exact h
  · exact alookup_append_some h _

theorem insertObjectTrackDef_self (st : WriterState) (e : SchedEvent) :
    (alookup (insertObjectTrackDef st e).track_definitions e.track).isSome = true := by
  unfold insertObjectTrackDef
  split
  · assumption
  · have hnone : alookup st.track_definitions e.track = none := by
      cases hl : alookup st.track_definitions e.track with
      | none => rfl
      | some v => simp_all
    rw [alookup_append_none hnone]
    simp [alookup]

/-! processEvent-level facts. -/

theorem processEvent_string_mono {st : WriterState} {k : String} {v : Nat} (e : SchedEvent)
    (h : alookup st.string_table k = some v) :
    alookup (processEvent st e).string_table k = some v := by
  unfold processEvent insertObjectEventData
  simp only [insertObjectTrackDef_strings, insertObjectEventDef_strings]
  unfold insertObjectStrings
  exact insertString_string_mono _ (insertString_string_mono _ (insertString_string_mono _ h))

theorem processEvent_evdef_mono {st : WriterState} {k : String} {v : Nat} (e : SchedEvent)
    (h : alookup st.event_definitions k = some v) :
    alookup (processEvent st e).event_definitions k = some v := by
  unfold processEvent insertObjectEventData
  simp only [insertObjectTrackDef_evdefs]
  apply insertObjectEventDef_evdef_mono
  unfold insertObjectStrings
  simpa only [insertString_evdefs] using h

theorem processEvent_trdef_mono {st : WriterState} {k : String} {v : Nat} (e : SchedEvent)
    (h : alookup st.track_definitions k = some v) :
    alookup (processEvent st e).track_definitions k = some v := by
  unfold processEvent insertObjectEventData
  apply insertObjectTrackDef_trdef_mono
  rw [insertObjectEventDef_trdefs]
  unfold insertObjectStrings
  simpa only [insertString_trdefs] using h

theorem isSome_of_alookup_mono {α β : Type} [DecidableEq α] {l l₂ : List (α × β)} {k : α}
    (h : (alookup l k).isSome = true)
    (step : ∀ v, alookup l k = some v → alookup l₂ k = some v) :
    (alookup l₂ k).isSome = true := by
  obtain ⟨v, hv⟩ := Option.isSome_iff_exists.mp h
  rw [step v hv]
  rfl

theorem processEvent_resolved_mono {st : WriterState} {e' : SchedEvent} (e : SchedEvent)
    (h : EventResolved st e') : EventResolved (processEvent st e) e' := by
  obtain ⟨h1, h2, h3, h4, h5⟩ := h
  refine ⟨?_, ?_, ?_, ?_, ?_⟩
  · exact isSome_of_alookup_mono h1 (fun v hv => processEvent_string_mono e hv)
  · exact isSome_of_alookup_mono h2 (fun v hv => processEvent_string_mono e hv)
  · exact isSome_of_alookup_mono h3 (fun v hv => processEvent_string_mono e hv)
  · exact isSome_of_alookup_mono h4 (fun v hv => processEvent_trdef_mono e hv)
  · exact isSome_of_alookup_mono h5 (fun v hv => processEvent_evdef_mono e hv)

theorem processEvent_resolved_self (st : WriterState) (e : SchedEvent) :
    EventResolved (processEvent st e) e := by
  refine ⟨?_, ?_, ?_, ?_, ?_⟩
  · unfold processEvent insertObjectEventData
    simp only [insertObjectTrackDef_strings, insertObjectEventDef_strings]
    unfold insertObjectStrings
    have h0 := insertString_self st e.datum
    exact isSome_of_alookup_mono
      (isSome_of_alookup_mono h0 (fun v hv => insertString_string_mono _ hv))
      (fun v hv => insertString_string_mono _ hv)
  · unfold processEvent insertObjectEventData
    simp only [insertObjectTrackDef_strings, insertObjectEventDef_strings]
    unfold insertObjectStrings
    have h0 := insertString_self (insertString st e.datum) e.track
    exact isSome_of_alookup_mono h0 (fun v hv => insertString_string_mono _ hv)
  · unfold processEvent insertObjectEventData
    simp only [insertObjectTrackDef_strings, insertObjectEventDef_strings]
    unfold insertObjectStrings
    exact insertString_self _ e.type
  · unfold processEvent insertObjectEventData
    exact insertObjectTrackDef_self _ e
  · unfold processEvent insertObjectEventData
    show (alookup (insertObjectTrackDef _ e).event_definitions e.type).isSome = true
    rw [insertObjectTrackDef_evdefs]
    exact insertObjectEventDef_self _ e

theorem evEntry_congr {st st2 : WriterState} {e : SchedEvent}
    (h : EventResolved st e)
    (hs : ∀ k v, alookup st.string_table k = some v → alookup st2.string_table k = some v)
    (hev : ∀ k v, alookup st.event_definitions k = some v →
      alookup st2.event_definitions k = some v)
    (htr : ∀ k v, alookup st.track_definitions k = some v →
      alookup st2.track_definitions k = some v) :
    evEntry st e = evEntry st2 e := by
  obtain ⟨h1, _, _, h4, h5⟩ := h
  obtain ⟨v1, hv1⟩ := Option.isSome_iff_exists.mp h1
  obtain ⟨v4, hv4⟩ := Option.isSome_iff_exists.mp h4
  obtain ⟨v5, hv5⟩ := Option.isSome_iff_exists.mp h5
  unfold evEntry
  rw [hv1, hv4, hv5, hs _ _ hv1, hev _ _ hv5, htr _ _ hv4]

theorem processEvent_event_data (st : WriterState) (e : SchedEvent) :
    (processEvent st e).event_data = st.event_data ++ [evEntry (processEvent st e) e] := by
  unfold processEvent
  unfold evEntry insertObjectEventData
  simp only [insertObjectTrackDef_event_data, insertObjectEventDef_event_data,
    insertString_event_data]
  unfold insertObjectStrings
  simp only [insertString_event_data]

theorem foldl_event_data (evs : List SchedEvent) :
    ∀ (st : WriterState) (pre : List SchedEvent),
    st.event_data = pre.map (evEntry st) →
    (∀ e ∈ pre, EventResolved st e) →
    (evs.foldl processEvent st).event_data
        = (pre ++ evs).map (evEntry (evs.foldl processEvent st)) ∧
      ∀ e ∈ pre ++ evs, EventResolved (evs.foldl processEvent st) e := by
  induction evs with
  | nil =>
    intro st pre hdata hres
    simpa using ⟨hdata, hres⟩
  | cons e rest ih =>
    intro st pre hdata hres
    have hres' : ∀ x ∈ pre ++ [e], EventResolved (processEvent st e) x := by
      intro x hx
      rcases List.mem_append.mp hx with hx | hx
      · exact processEvent_resolved_mono e (hres x hx)
      · have hxe : x = e := List.mem_singleton.mp hx
        rw [hxe]
        exact processEvent_resolved_self st e
    have hdata' : (processEvent st e).event_data
        = (pre ++ [e]).map (evEntry (processEvent st e)) := by
      rw [processEvent_event_data, hdata, List.map_append]
      congr 1
      apply List.map_congr_left
      intro x hx
      exact evEntry_congr (hres x hx)
        (fun k v hv => processEvent_string_mono e hv)
        (fun k v hv => processEvent_evdef_mono e hv)
        (fun k v hv => processEvent_trdef_mono e hv)
    have := ih (processEvent st e) (pre ++ [e]) hdata' hres'
    simpa [List.append_assoc] using this

theorem collectEvents_event_data (events : List SchedEvent) :
    (collectEvents events).event_data = events.map (evEntry (collectEvents events)) ∧
    ∀ e ∈ events, EventResolved (collectEvents events) e := by
  have h := foldl_event_data events initWriterState [] rfl (by simp)
  simpa [collectEvents] using h

/-- Structural invariant of the writer state maintained by every insert
operation: the string table keeps its two seed entries, holds each key once
at a strictly increasing offset that points at the key inside the string
resource, and the two definition tables enumerate their numeric codes in
first-seen order 0, 1, 2, ... -/
structure WInv (st : WriterState) : Prop where
  seed : ∃ l, st.string_table = [(shortTableName, 0), ("%s", 11)] ++ l
  keys_nodup : (st.string_table.map Prod.fst).Nodup
  offs_bound : ∀ p ∈ st.string_table, p.2 + p.1.length ≤ st.sec1
  offs_mono : (st.string_table.map Prod.snd).Pairwise (fun a b => a < b)
  sec_eq : st.sec1 = st.string_resource.length
  reach : ∀ p ∈ st.string_table, (st.string_resource.drop p.2).take p.1.length = p.1.data
  ev_codes : st.event_definitions.map Prod.snd = List.range st.event_definitions.length
  ev_idx : st.event_def_index = st.event_definitions.length
  ev_nodup : (st.event_definitions.map Prod.fst).Nodup
  tr_codes : st.track_definitions.map Prod.snd = List.range st.track_definitions.length
  tr_idx : st.track_def_index = st.track_definitions.length
  tr_nodup : (st.track_definitions.map Prod.fst).Nodup

theorem winv_init : WInv initWriterState := by
  refine ⟨⟨[], by decide⟩, ?_, ?_, ?_, ?_, ?_, ?_, ?_, ?_, ?_, ?_, ?_⟩ <;> decide

theorem winv_insertString {st : WriterState} (hinv : WInv st) (s : String) :
    WInv (insertString st s) := by
  unfold insertString
  split
  · exact hinv
  · rename_i hnotin
    have hnone : alookup st.string_table s = none := by
      cases hl : alookup st.string_table s with
      | none => rfl
      | some v => simp_all
    have hsnotmem : s ∉ st.string_table.map Prod.fst := alookup_none_not_mem hnone
    obtain ⟨seedl, hseed⟩ := hinv.seed
    refine ⟨⟨seedl ++ [(s, st.sec1 + 1)], by simp [hseed]⟩, ?_, ?_, ?_, ?_, ?_,
      hinv.ev_codes, hinv.ev_idx, hinv.ev_nodup, hinv.tr_codes, hinv.tr_idx, hinv.tr_nodup⟩
    · simp only [List.map_append, List.map_cons, List.map_nil]
      rw [List.nodup_append]
      exact ⟨hinv.keys_nodup, List.nodup_singleton s, by simpa using hsnotmem⟩
    · intro p hp
      rcases List.mem_append.mp hp with hp | hp
      · exact le_trans (hinv.offs_bound p hp) (Nat.le_add_right _ _)
      · rcases List.mem_singleton.mp hp with rfl
        simp only
        omega
    · simp only [List.map_append, List.map_cons, List.map_nil]
      rw [List.pairwise_append]
      refine ⟨hinv.offs_mono, List.pairwise_singleton _ _, ?_⟩
      intro a ha b hb
      rcases List.mem_singleton.mp hb with rfl
      rcases List.mem_map.mp ha with ⟨p, hp, rfl⟩
      have := hinv.offs_bound p hp
      omega
    · simp only [List.length_append, List.length_cons]
      have hlen : s.length = s.data.length := rfl
      have := hinv.sec_eq
      omega
    · intro p hp
      rcases List.mem_append.mp hp with hp | hp
      · have hb := hinv.offs_bound p hp
        have hsec := hinv.sec_eq
        rw [List.drop_append_of_le_length (by omega)]
        rw [List.take_append_of_le_length (by simp; omega)]
        exact hinv.reach p hp
      · rcases List.mem_singleton.mp hp with rfl
        simp only
        rw [List.append_cons st.string_resource '\x00' s.data]
        have hlen : (st.string_resource ++ ['\x00']).length = st.sec1 + 1 := by
          simp [hinv.sec_eq]
        rw [List.drop_left' hlen]
        have : s.length = s.data.length := rfl
        rw [this, List.take_length]

theorem winv_insertObjectEventDef {st : WriterState} (hinv : WInv st) (e : SchedEvent) :
    WInv (insertObjectEventDef st e) := by
  unfold insertObjectEventDef
  split
  · exact hinv
  · have hnone : alookup st.event_definitions e.type = none := by
      cases hl : alookup st.event_definitions e.type with
      | none => rfl
      | some v => simp_all
    have hnotmem := alookup_none_not_mem hnone
    refine ⟨hinv.seed, hinv.keys_nodup, hinv.offs_bound, hinv.offs_mono, hinv.sec_eq,
      hinv.reach, ?_, ?_, ?_, hinv.tr_codes, hinv.tr_idx, hinv.tr_nodup⟩
    · simp only [List.map_append, List.map_cons, List.map_nil, List.length_append,
        List.length_cons, List.length_nil]
      rw [hinv.ev_codes, hinv.ev_idx, List.range_succ]
    · simp [hinv.ev_idx]
    · simp only [List.map_append, List.map_cons, List.map_nil]
      rw [List.nodup_append]
      exact ⟨hinv.ev_nodup, List.nodup_singleton _, by simpa using hnotmem⟩

theorem winv_insertObjectTrackDef {st : WriterState} (hinv : WInv st) (e : SchedEvent) :
    WInv (insertObjectTrackDef st e) := by
  unfold insertObjectTrackDef
  split
  · exact hinv
  · have hnone : alookup st.track_definitions e.track = none := by
      cases hl : alookup st.track_definitions e.track with
      | none => rfl
      | some v => simp_all
    have hnotmem := alookup_none_not_mem hnone
    refine ⟨hinv.seed, hinv.keys_nodup, hinv.offs_bound, hinv.offs_mono, hinv.sec_eq,
      hinv.reach, hinv.ev_codes, hinv.ev_idx, hinv.ev_nodup, ?_, ?_, ?_⟩
    · simp only [List.map_append, List.map_cons, List.map_nil, List.length_append,
        List.length_cons, List.length_nil]
      rw [hinv.tr_codes, hinv.tr_idx, List.range_succ]
    · simp [hinv.tr_idx]
    · simp only [List.map_append, List.map_cons, List.map_nil]
      rw [List.nodup_append]
      exact ⟨hinv.tr_nodup, List.nodup_singleton _, by simpa using hnotmem⟩

theorem winv_insertObjectEventData {st : WriterState} (hinv : WInv st) (e : SchedEvent) :
    WInv (insertObjectEventData st e) := by
  exact ⟨hinv.seed, hinv.keys_nodup, hinv.offs_bound, hinv.offs_mono, hinv.sec_eq,
    hinv.reach, hinv.ev_codes, hinv.ev_idx, hinv.ev_nodup, hinv.tr_codes, hinv.tr_idx,
    hinv.tr_nodup⟩

theorem winv_processEvent {st : WriterState} (hinv : WInv st) (e : SchedEvent) :
    WInv (processEvent st e) := by
  unfold processEvent insertObjectStrings
  exact winv_insertObjectEventData
    (winv_insertObjectTrackDef
      (winv_insertObjectEventDef
        (winv_insertString (winv_insertString (winv_insertString hinv e.datum) e.track) e.type)
        e) e) e

theorem winv_foldl (evs : List SchedEvent) :
    ∀ st : WriterState, WInv st → WInv (evs.foldl processEvent st) := by
  induction evs with
  | nil => intro st h; exact h
  | cons e rest ih =>
    intro st h
    exact ih (processEvent st e) (winv_processEvent h e)

theorem winv_collectEvents (events : List SchedEvent) : WInv (collectEvents events) :=
  winv_foldl events initWriterState winv_init

theorem sortByCode_eq_self {st : WriterState} (hinv : WInv st) :
    sortByCode st.event_definitions = st.event_definitions := by
  unfold sortByCode
  apply List.Sorted.insertionSort_eq
  have h : (st.event_definitions.map Prod.snd).Pairwise (fun a b => a ≤ b) := by
    rw [hinv.ev_codes]
    exact List.sorted_le_range _
  exact (List.pairwise_map.mp h)

/-- Claim C1, counterexample: the same (empty) record sequence serialized
with two different file-creation timestamps yields different bytes, so the
file contents are not a function of the record sequence alone. -/
theorem claim_C1_counterexample : cpelWrite [] 0 ≠ cpelWrite [] 1 := by decide

/-- Claim C1, amended: for a fixed record sequence the output is
byte-identical outside the 4-byte file-date field (bytes 4 to 7 of the
header); bytes 0 to 3 and everything from byte 8 on are a deterministic
function of the record sequence alone. -/
theorem claim_C1_thm (events : List SchedEvent) (d1 d2 : Nat) :
    (cpelWrite events d1).take 4 = (cpelWrite events d2).take 4 ∧
    (cpelWrite events d1).drop 8 = (cpelWrite events d2).drop 8 :=
  ⟨rfl, rfl⟩

/-- Claim C2, counterexample: with event types first seen in the order
"b", "a", the event-definition section written by the code (sorted by
numeric code) differs from the section the claim describes (sorted
lexicographically by type name). -/
theorem claim_C2_counterexample :
    writeEventDef (collectEvents
        [⟨"d1", "t1", 0, "b"⟩, ⟨"d2", "t2", 1, "a"⟩])
      ≠ writeEventDefSpecOrder (collectEvents
        [⟨"d1", "t1", 0, "b"⟩, ⟨"d2", "t2", 1, "a"⟩]) := by decide

/-- Claim C2, amended: the 12-byte records of the event-type definition
section appear in ascending numeric-code order, which is the order the
types were first seen; the codes are exactly 0, 1, 2, ... in first-seen
order. -/
theorem claim_C2_thm (events : List SchedEvent) :
    writeEventDef (collectEvents events)
        = (collectEvents events).event_definitions.flatMap
            (eventDefRecord (collectEvents events)) ∧
    (collectEvents events).event_definitions.map Prod.snd
        = List.range (collectEvents events).event_definitions.length := by
  constructor
  · unfold writeEventDef
    rw [sortByCode_eq_self (winv_collectEvents events)]
  · exact (winv_collectEvents events).ev_codes

/-- Claim C6: the string table of the writer holds the two seed entries
(table-name placeholder at offset 0, "%s" at offset 11) first, contains
each distinct referenced string exactly once with offsets assigned in
strictly increasing first-insertion order, contains every datum, track and
type string of the input, and every stored offset points at the characters
of its string inside the string resource. -/
theorem claim_C6_thm (events : List SchedEvent) :
    ((collectEvents events).string_table.take 2 = [(shortTableName, 0), ("%s", 11)]) ∧
    ((collectEvents events).string_table.map Prod.fst).Nodup ∧
    ((collectEvents events).string_table.map Prod.snd).Pairwise (fun a b => a < b) ∧
    (∀ e ∈ events,
      (alookup (collectEvents events).string_table e.datum).isSome = true ∧
      (alookup (collectEvents events).string_table e.track).isSome = true ∧
      (alookup (collectEvents events).string_table e.type).isSome = true) ∧
    (∀ p ∈ (collectEvents events).string_table,
      ((collectEvents events).string_resource.drop p.2).take p.1.length = p.1.data) := by
  have hinv := winv_collectEvents events
  have hres := (collectEvents_event_data events).2
  refine ⟨?_, hinv.keys_nodup, hinv.offs_mono, ?_, hinv.reach⟩
  · obtain ⟨l, hl⟩ := hinv.seed
    rw [hl]
    rfl
  · intro e he
    obtain ⟨h1, h2, h3, _, _⟩ := hres e he
    exact ⟨h1, h2, h3⟩

/-- Claim C6, witness at a concrete input: the strings of the one-event
list are all present in its string table. -/
theorem claim_C6_witness :
    (alookup (collectEvents [⟨"d0", "cpu 1", 5, "ty"⟩]).string_table "d0").isSome = true ∧
    (alookup (collectEvents [⟨"d0", "cpu 1", 5, "ty"⟩]).string_table "cpu 1").isSome = true ∧
    (alookup (collectEvents [⟨"d0", "cpu 1", 5, "ty"⟩]).string_table "ty").isSome = true := by
  have h := (claim_C6_thm [⟨"d0", "cpu 1", 5, "ty"⟩]).2.2.2.1
    ⟨"d0", "cpu 1", 5, "ty"⟩ (by simp)
  exact h

/-- Claim C7: the event section is one 20-byte record per input event in
input order; each record carries the two 32-bit halves of the timestamp
(which reassemble to the original timestamp for any value below 2 to the
64), the track id, the event-type code and the string-table offset of the
payload text. -/
theorem claim_C7_thm (events : List SchedEvent) :
    writeEvents (collectEvents events)
        = (collectEvents events).event_data.flatMap eventRecordBytes ∧
    (collectEvents events).event_data = events.map (evEntry (collectEvents events)) ∧
    (∀ ev ∈ (collectEvents events).event_data, (eventRecordBytes ev).length = 20) ∧
    (∀ t : Nat, t < 2 ^ 64 → (t >>> 32) * 2 ^ 32 + (t &&& (2 ^ 32 - 1)) = t) := by
  refine ⟨rfl, (collectEvents_event_data events).1, ?_, ?_⟩
  · intro ev _
    simp [eventRecordBytes, u32be]
  · intro t _
    rw [Nat.shiftRight_eq_div_pow, Nat.and_pow_two_sub_one_eq_mod]
    omega

/-- Claim C7, witness at a concrete input: the single event of the
one-event list produces the expected 20-byte entry, and a concrete 64-bit
timestamp splits and reassembles. -/
theorem claim_C7_witness :
    (collectEvents [⟨"d0", "cpu 1", 4294967299, "ty"⟩]).event_data
        = [⟨4294967299, 0, 0, 14⟩] ∧
    ((4294967299 : Nat) >>> 32) * 2 ^ 32 + ((4294967299 : Nat) &&& (2 ^ 32 - 1))
        = 4294967299 := by
  constructor
  · have h := (claim_C7_thm [⟨"d0", "cpu 1", 4294967299, "ty"⟩]).2.1
    rw [h]
    decide
  · exact (claim_C7_thm []).2.2.2 4294967299 (by norm_num)

/-! check_kernel_version (src/common/util.py).

The decorator splits both the required version and the running kernel
release on dots and dashes, then compares the first three components with
the ordinary Python list/str comparison, which is lexicographic on code
points, NOT numeric. -/

/-- re.split over a single-character alternation: cut at every matching
character, keeping empty pieces (Python re.split semantics). -/
def splitDelim (p : Char → Bool) : List Char → List String
  | [] => [String.mk []]
  | c :: cs =>
    if p c then String.mk [] :: splitDelim p cs
    else
      match splitDelim p cs with
      | [] => [String.mk [c]]
      | s :: rest => String.mk (c :: s.data) :: rest

/-- re.split of a version string on a dot or dash, as in
check_kernel_version. -/
def versionComponents (s : String) : List String :=
  splitDelim (fun c => c == '.' || c == '-') s.data

/-- Python strict less-than on two character sequences: lexicographic by
code point, a proper prefix sorting first. -/
def pyCharListLt : List Char → List Char → Bool
  | [], [] => false
  | [], _ :: _ => true
  | _ :: _, [] => false
  | a :: as, b :: bs => if a < b then true else if b < a then false else pyCharListLt as bs

/-- Python strict less-than on two strings (str comparison). -/
def pyStrLtB (a b : String) : Bool := pyCharListLt a.data b.data

/-- Python strict less-than on two lists of strings: lexicographic on the
elements, a proper prefix sorting first. -/
def pyListStrLt : List String → List String → Bool
  | [], [] => false
  | [], _ :: _ => true
  | _ :: _, [] => false
  | a :: as, b :: bs =>
    if pyStrLtB a b then true else if pyStrLtB b a then false else pyListStrLt as bs

/-- check_kernel_version: the wrapped call raises NotSupportedException
exactly when the first three dot- or dash-separated components of the
running release compare below those of the required version under Python
list-of-strings comparison. -/
def checkKernelRaises (required_kernel target_kernel : String) : Bool :=
  pyListStrLt ((versionComponents target_kernel).take 3)
    ((versionComponents required_kernel).take 3)

/-- Claim C3: the code contradicts the numeric component-wise reading.  A
running kernel 10.0.0 against the required minimum 2.6.27 (the value
MemoryGraph uses) is rejected, because the components are compared as
strings and "10" sorts below "2"; likewise release 100.0.0, which the
test suite assumes passes every kernel check, is rejected. -/
theorem claim_C3_thm :
    checkKernelRaises "2.6.27" "10.0.0" = true ∧
    checkKernelRaises "2.6.27" "100.0.0" = true ∧
    checkKernelRaises "2.6.27" "4.15.0-20" = false := by decide

/-! MemoryGraph (src/marple/collect/interface/smem.py).

_get_raw_data repeatedly invokes smem, parses its per-line output into a
label-to-MiB dictionary keyed by the elapsed time, sleeps for the refresh
interval and recomputes the elapsed time until it reaches the requested
duration.  Floats are modelled as rationals; time.monotonic() minus
start_time is the ambient clock function; the regex match of one line is
abstracted to its outcome (a (label, memory) pair or a rejection). -/

/-- One line of smem output after the regex: a (label, memory-KiB) match,
or a line the regex rejects. -/
inductive SmemLine
  | parsed (label : String) (memory : Nat)
  | malformed (raw : String)
deriving DecidableEq

/-- Whether the regex matched the line. -/
def SmemLine.isParsed : SmemLine → Bool
  | .parsed _ _ => true
  | .malformed _ => false

/-- One invocation of the smem subprocess: return code, stderr text and
the parsed stdout lines (title line and trailing empty line already
stripped, as in the source). -/
structure SmemSnap where
  returncode : Int
  stderr : String
  lines : List SmemLine
deriving DecidableEq

/-- The exceptions _get_raw_data can raise: SubprocessedErorred on a
nonzero return code, ValueError on an unsupported mode, IOError on a line
the regex rejects. -/
inductive SmemErr
  | subprocessErorred (msg : String)
  | valueErrorBadMode (mode : String)
  | invalidOutput (raw : String)
deriving DecidableEq

/-- MemoryGraph.modes. -/
def smemModes : List String := ["command", "name", "pid"]

/-- The inner loop over one snapshot (lines are fed to this function
already reversed, as the source iterates reversed(range(len(lines)))):
each match contributes memory/1024 MiB, added to the running value of its
label if the label is already in the dictionary. -/
def snapshotFold : List SmemLine → List (String × Rat) → Except SmemErr (List (String × Rat))
  | [], acc => .ok acc
  | .malformed raw :: _, _ => .error (.invalidOutput raw)
  | .parsed label memory :: rest, acc =>
    snapshotFold rest (aupdate acc label
      (match alookup acc label with
        | some prev => (memory : Rat) / 1024 + prev
        | none => (memory : Rat) / 1024))

/-- The per-snapshot dictionary built by one iteration of _get_raw_data:
the lines processed last-to-first. -/
def parseSnapshot (lines : List SmemLine) : Except SmemErr (List (String × Rat)) :=
  snapshotFold lines.reverse []

/-- The while loop of _get_raw_data.  duration is self.time; clock i is
the monotonic elapsed time read after the i-th sleep; snaps i is the i-th
smem invocation; fuel bounds how many iterations the model unfolds (none
means the fuel ran out before the loop exited). -/
def smemLoop (mode : String) (duration : Rat) (clock : Nat → Rat)
    (snaps : Nat → SmemSnap) :
    Nat → Nat → Rat → List (Rat × List (String × Rat)) →
    Option (Except SmemErr (List (Rat × List (String × Rat))))
  | 0, _, _, _ => none
  | fuel + 1, i, current_time, datapoints =>
    if current_time < duration then
      if mode ∉ smemModes then some (.error (.valueErrorBadMode mode))
      else if (snaps i).returncode ≠ 0 then
        some (.error (.subprocessErorred (snaps i).stderr))
      else
        match parseSnapshot (snaps i).lines with
        | .error e => some (.error e)
        | .ok d =>
          smemLoop mode duration clock snaps fuel (i + 1) (clock (i + 1))
            (aupdate datapoints current_time d)
    else some (.ok datapoints)

/-- data_io.PointDatum as produced by MemoryGraph._get_generator:
elapsed-time key, MiB value, label. -/
structure PointDatum where
  time : Rat
  value : Rat
  label : String
deriving DecidableEq

/-- Modelled from the spec: marple.common.data_io is not under src/, so
the result record follows the CollectionResult of the spec.  records is
the optional record sequence (the failure path passes None, the success
path a generator); the window bounds are the start and end values the
call passes. -/
structure PointData where
  records : Option (List PointDatum)
  time_start : Int
  time_end : Int
deriving DecidableEq

/-- Modelled from the spec: the succeeded indicator of the CollectionResult
corresponds to whether a record sequence is present (the failure result
passes records=None). -/
def PointData.succeeded (p : PointData) : Bool := p.records.isSome

/-- The record sequence of a result, empty when no records are present. -/
def PointData.recordList (p : PointData) : List PointDatum := p.records.getD []

/-- MemoryGraph._get_generator: one PointDatum per (time key, label)
binding of the raw data. -/
def getGenerator (raw : List (Rat × List (String × Rat))) : List PointDatum :=
  raw.flatMap (fun kv => kv.2.map (fun lv => ⟨kv.1, lv.2, lv.1⟩))

/-- MemoryGraph.collect: a SubprocessedErorred from _get_raw_data is
caught and turned into the failure result PointData(None, -1, -1); other
exceptions propagate; on success the generator and the wall-clock window
(datetime.now() at loop entry and exit, passed in as wallStart and
wallEnd) are returned. -/
def smemCollect (mode : String) (duration : Rat) (clock : Nat → Rat)
    (snaps : Nat → SmemSnap) (wallStart wallEnd : Int) (fuel : Nat) :
    Option (Except SmemErr PointData) :=
  match smemLoop mode duration clock snaps fuel 0 0 [] with
  | none => none
  | some (.error (.subprocessErorred _)) => some (.ok ⟨none, -1, -1⟩)
  | some (.error e) => some (.error e)
  | some (.ok raw) => some (.ok ⟨some (getGenerator raw), wallStart, wallEnd⟩)

/-- Claim C4: when the spawned smem subprocess fails (nonzero return code
on the first invocation), collect does not propagate the exception: it
returns the failure result, whose succeeded indicator is false, whose
record sequence is empty, and whose window bounds are set (to the sentinel
value -1 that the source passes). -/
theorem claim_C4_thm (mode : String) (duration : Rat) (clock : Nat → Rat)
    (snaps : Nat → SmemSnap) (wallStart wallEnd : Int) (fuel : Nat)
    (hmode : mode ∈ smemModes) (hdur : 0 < duration) (hfuel : 0 < fuel)
    (hrc : (snaps 0).returncode ≠ 0) :
    ∃ pd : PointData,
      smemCollect mode duration clock snaps wallStart wallEnd fuel = some (.ok pd) ∧
      pd.succeeded = false ∧ pd.recordList = [] ∧
      pd.time_start = -1 ∧ pd.time_end = -1 := by
  obtain ⟨f, rfl⟩ : ∃ f, fuel = f + 1 := ⟨fuel - 1, by omega⟩
  refine ⟨⟨none, -1, -1⟩, ?_, rfl, rfl, rfl, rfl⟩
  unfold smemCollect
  have hloop : smemLoop mode duration clock snaps (f + 1) 0 0 []
      = some (.error (.subprocessErorred (snaps 0).stderr)) := by
    unfold smemLoop
    rw [if_pos hdur, if_neg (not_not_intro hmode), if_pos hrc]
  rw [hloop]

/-- Claim C4, witness: a run whose first smem invocation exits with code 1
produces the failure result with empty records and sentinel bounds. -/
theorem claim_C4_witness :
    ∃ pd : PointData,
      smemCollect "name" 1 (fun i => (i : Rat)) (fun _ => ⟨1, "smem exploded", []⟩) 7 9 1
          = some (.ok pd) ∧
      pd.succeeded = false ∧ pd.recordList = [] ∧
      pd.time_start = -1 ∧ pd.time_end = -1 :=
  claim_C4_thm "name" 1 (fun i => (i : Rat)) (fun _ => ⟨1, "smem exploded", []⟩) 7 9 1
    (by decide) (by norm_num) (by norm_num) (by decide)

theorem smemLoop_isSome (mode : String) (duration freq : Rat) (clock : Nat → Rat)
    (snaps : Nat → SmemSnap) (_hfreq : 0 < freq)
    (hclock : ∀ i, clock i + freq ≤ clock (i + 1)) :
    ∀ (k i : Nat) (current : Rat) (acc : List (Rat × List (String × Rat))),
      current ≤ clock i →
      duration ≤ current + k * freq →
      (smemLoop mode duration clock snaps (k + 1) i current acc).isSome = true := by
  intro k
  induction k with
  | zero =>
    intro i current acc hinv hbound
    unfold smemLoop
    rw [if_neg (not_lt.mpr (by push_cast at hbound; linarith))]
    rfl
  | succ k ih =>
    intro i current acc hinv hbound
    unfold smemLoop
    by_cases hc : current < duration
    · rw [if_pos hc]
      by_cases hm : mode ∉ smemModes
      · rw [if_pos hm]; rfl
      · rw [if_neg hm]
        by_cases hr : (snaps i).returncode ≠ 0
        · rw [if_pos hr]; rfl
        · rw [if_neg hr]
          cases hp : parseSnapshot (snaps i).lines with
          | error e => rfl
          | ok d =>
            apply ih (i + 1) (clock (i + 1)) _ le_rfl
            have h1 := hclock i
            push_cast at hbound ⊢
            linarith
    · rw [if_neg hc]; rfl

/-- Claim C8: with a positive requested duration and a positive refresh
interval, and a monotonic clock that advances by at least the refresh
interval across each sleep, the sampling loop of _get_raw_data
terminates: a finite fuel makes it return, and as soon as the elapsed
time reaches the duration the loop exits at once with the accumulated
data. -/
theorem claim_C8_thm (mode : String) (duration freq : Rat) (clock : Nat → Rat)
    (snaps : Nat → SmemSnap)
    (_hdur : 0 < duration) (hfreq : 0 < freq) (h0 : 0 ≤ clock 0)
    (hclock : ∀ i, clock i + freq ≤ clock (i + 1)) :
    (∃ fuel, (smemLoop mode duration clock snaps fuel 0 0 []).isSome = true) ∧
    (∀ (fuel i : Nat) (current : Rat) (acc : List (Rat × List (String × Rat))),
      duration ≤ current →
      smemLoop mode duration clock snaps (fuel + 1) i current acc = some (.ok acc)) := by
  constructor
  · refine ⟨Nat.ceil (duration / freq) + 1, ?_⟩
    apply smemLoop_isSome mode duration freq clock snaps hfreq hclock _ 0 0 [] h0

    have h1 : duration / freq ≤ (Nat.ceil (duration / freq) : Rat) := Nat.le_ceil _
    rw [div_le_iff₀ hfreq] at h1
    linarith
  · intro fuel i current acc h
    unfold smemLoop
    rw [if_neg (not_lt.mpr h)]

/-- Claim C8, witness: a concrete loop (duration 1, refresh interval 1,
ideal clock) terminates within some fuel, and a loop entered with elapsed
time at the duration exits immediately. -/
theorem claim_C8_witness :
    (∃ fuel, (smemLoop "name" 1 (fun i => (i : Rat)) (fun _ => ⟨0, "", []⟩)
        fuel 0 0 []).isSome = true) ∧
    smemLoop "name" 1 (fun i => (i : Rat)) (fun _ => ⟨0, "", []⟩) 5 3 2 []
        = some (.ok []) := by
  have h := claim_C8_thm "name" 1 1 (fun i => (i : Rat)) (fun _ => ⟨0, "", []⟩)
    (by norm_num) (by norm_num) (by norm_num)
    (fun i => by push_cast; linarith)
  exact ⟨h.1, h.2 4 3 2 [] (by norm_num)⟩

theorem alookup_aupdate_self {α β : Type} [DecidableEq α] (l : List (α × β)) (k : α) (v : β) :
    alookup (aupdate l k v) k = some v := by
  induction l with
  | nil =>
    show alookup [(k, v)] k = some v
    rw [alookup_cons, if_pos rfl]
  | cons p rest ih =>
    cases p with
    | mk a b =>
      show alookup (if a = k then (k, v) :: rest else (a, b) :: aupdate rest k v) k = some v
      by_cases hak : a = k
      · rw [if_pos hak, alookup_cons, if_pos rfl]
      · rw [if_neg hak, alookup_cons, if_neg hak, ih]

theorem alookup_aupdate_other {α β : Type} [DecidableEq α] (l : List (α × β)) (k k2 : α)
    (v : β) (h : k ≠ k2) : alookup (aupdate l k v) k2 = alookup l k2 := by
  induction l with
  | nil =>
    show alookup [(k, v)] k2 = alookup [] k2
    rw [alookup_cons, if_neg h]
  | cons p rest ih =>
    cases p with
    | mk a b =>
      show alookup (if a = k then (k, v) :: rest else (a, b) :: aupdate rest k v) k2
          = alookup ((a, b) :: rest) k2
      by_cases hak : a = k
      · rw [if_pos hak, alookup_cons, alookup_cons]
        have h2 : ((a, b) : α × β).1 ≠ k2 := by simpa [hak] using h
        rw [if_neg h, if_neg h2]
      · rw [if_neg hak, alookup_cons, alookup_cons]
        by_cases hak2 : a = k2
        · rw [if_pos hak2, if_pos hak2]
        · rw [if_neg hak2, if_neg hak2, ih]

/-- The MiB contribution of one line to a given label: memory/1024 if the
line matches the label, else 0. -/
def lineShare (label : String) : SmemLine → Rat
  | .parsed lab mem => if lab = label then (mem : Rat) / 1024 else 0
  | .malformed _ => 0

/-- The total MiB all lines of a snapshot contribute to a label. -/
def labelTotal (label : String) (lines : List SmemLine) : Rat :=
  (lines.map (lineShare label)).sum

/-- Whether a line is a parse of the given label. -/
def isLabelLine (label : String) : SmemLine → Bool
  | .parsed lab _ => lab == label
  | .malformed _ => false

/-- How many lines of a snapshot carry the given label. -/
def labelCount (label : String) (lines : List SmemLine) : Nat :=
  lines.countP (isLabelLine label)

theorem snapshotFold_spec (label : String) :
    ∀ (ls : List SmemLine) (acc : List (String × Rat)),
      (∀ l ∈ ls, l.isParsed = true) →
      ∃ d, snapshotFold ls acc = .ok d ∧
        (alookup d label).getD 0 = labelTotal label ls + (alookup acc label).getD 0 ∧
        (alookup d label).isSome
          = (decide (0 < labelCount label ls) || (alookup acc label).isSome) := by
  intro ls
  induction ls with
  | nil =>
    intro acc _
    exact ⟨acc, rfl, by simp [labelTotal], by simp [labelCount]⟩
  | cons l rest ih =>
    intro acc hok
    cases l with
    | malformed raw =>
      have := hok (.malformed raw) (by simp)
      simp [SmemLine.isParsed] at this
    | parsed lab mem =>
      have hrest : ∀ x ∈ rest, x.isParsed = true := fun x hx => hok x (by simp [hx])
      have hmem2 :
          (match alookup acc lab with
            | some prev => (mem : Rat) / 1024 + prev
            | none => (mem : Rat) / 1024)
          = (mem : Rat) / 1024 + (alookup acc lab).getD 0 := by
        cases h : alookup acc lab <;> simp
      obtain ⟨d, hd, hval, hsome⟩ :=
        ih (aupdate acc lab ((mem : Rat) / 1024 + (alookup acc lab).getD 0)) hrest
      refine ⟨d, ?_, ?_, ?_⟩
      · show snapshotFold (.parsed lab mem :: rest) acc = Except.ok d
        unfold snapshotFold
        rw [hmem2]
        exact hd
      · rw [hval]
        by_cases hl : lab = label
        · subst hl
          rw [alookup_aupdate_self]
          have hTot : labelTotal lab (.parsed lab mem :: rest)
              = (mem : Rat) / 1024 + labelTotal lab rest := by
            simp [labelTotal, lineShare]
          rw [hTot]
          simp only [Option.getD_some]
          ring
        · rw [alookup_aupdate_other _ _ _ _ hl]
          have hTot : labelTotal label (.parsed lab mem :: rest) = labelTotal label rest := by
            simp [labelTotal, lineShare, hl]
          rw [hTot]
      · rw [hsome]
        by_cases hl : lab = label
        · subst hl
          rw [alookup_aupdate_self]
          have hcnt : 0 < labelCount lab (.parsed lab mem :: rest) := by
            simp [labelCount, isLabelLine, List.countP_cons]
          simp [hcnt]
        · rw [alookup_aupdate_other _ _ _ _ hl]
          have hcnt : labelCount label (.parsed lab mem :: rest) = labelCount label rest := by
            simp [labelCount, isLabelLine, List.countP_cons, hl]
          rw [hcnt]

/-- Claim C10: if every line of one smem snapshot parses and some label
occurs on two or more lines, the snapshot dictionary maps that label to
the sum of all those lines MiB values (each memory value converted from
KiB by dividing by 1024), rather than keeping a single line or failing. -/
theorem claim_C10_thm (lines : List SmemLine) (label : String)
    (hok : ∀ l ∈ lines, l.isParsed = true)
    (hcount : 2 ≤ labelCount label lines) :
    ∃ d, parseSnapshot lines = .ok d ∧
      alookup d label = some (labelTotal label lines) := by
  have hokr : ∀ l ∈ lines.reverse, l.isParsed = true := by
    intro l hl
    exact hok l (List.mem_reverse.mp hl)
  obtain ⟨d, hd, hval, hsome⟩ := snapshotFold_spec label lines.reverse [] hokr
  refine ⟨d, hd, ?_⟩
  have hcr : labelCount label lines.reverse = labelCount label lines := by
    simp [labelCount]
  have htr : labelTotal label lines.reverse = labelTotal label lines := by
    simp [labelTotal, List.map_reverse, List.sum_reverse]
  have hpos : 0 < labelCount label lines.reverse := by omega
  have hs : (alookup d label).isSome = true := by
    rw [hsome]
    simp [hpos, alookup]
  obtain ⟨v, hv⟩ := Option.isSome_iff_exists.mp hs
  rw [hv] at hval ⊢
  simp only [Option.getD_some] at hval
  simp only [alookup_nil, Option.getD_none, add_zero] at hval
  rw [hval, htr]

/-- Claim C10, witness: a snapshot with two lines for the same label maps
that label to the sum of their MiB values. -/
theorem claim_C10_witness :
    ∃ d, parseSnapshot [.parsed "python" 2048, .parsed "python" 1024] = .ok d ∧
      alookup d "python"
        = some (labelTotal "python" [.parsed "python" 2048, .parsed "python" 1024]) :=
  claim_C10_thm [.parsed "python" 2048, .parsed "python" 1024] "python"
    (by decide) (by decide)

/-! The Port Correlator and the subprocess outcome classification.

marple/collect/interface/ebpf.py (class TCPTracer) is not under src/:
only its test module src/marple/collect/test/interface/test_ebpf.py is.
The definitions below are therefore modelled from the spec (section 4.3
for the correlator, section 4.1 for the stderr classification), with the
marker strings and field layout the tests exhibit. -/

/-- Modelled from the spec: one fixed-column line of the connection trace,
columns time, type, pid, comm, ip_version, src_addr, dst_addr, src_port,
dst_port, size, netns (spec section 4.3). -/
structure TraceLine where
  time : Nat
  typ : String
  pid : Nat
  comm : String
  ip_ver : Nat
  src_addr : String
  dst_addr : String
  src_port : Nat
  dst_port : Nat
  size : Nat
  netns : Nat
deriving DecidableEq

/-- Modelled from the spec: the correlated EventDatum emitted for one
resolved connect line, pairing the source identity from the line itself
with the resolved destination identity; the attributes carry size and the
net namespace (spec section 4.3 and the expected events of
test_generate_events_normal). -/
structure ConnEvent where
  time : Nat
  typ : String
  source_pid : Nat
  source_comm : String
  source_port : Nat
  dest_pid : Nat
  dest_comm : String
  dest_port : Nat
  size : Nat
  net_ns : Nat
deriving DecidableEq

/-- Modelled from the spec: a non-fatal correlation diagnostic, carrying
the full record context: either no candidate was found for the
destination port, or all the candidates of an ambiguous port. -/
inductive PortDiag
  | missing (l : TraceLine)
  | ambiguous (l : TraceLine) (candidates : List (Nat × String))
deriving DecidableEq

/-- Modelled from the spec: the optional namespace filter; only lines
matching the filter are retained, before both phases. -/
def filterNs (nsOpt : Option Nat) (lines : List TraceLine) : List TraceLine :=
  match nsOpt with
  | none => lines
  | some ns => lines.filter (fun l => l.netns == ns)

/-- Modelled from the spec: one step of the build phase.  A
listening/accept line adds its (pid, comm) identity to the set mapped
from its port; other lines leave the registry unchanged. -/
def buildStep (isAccept : String → Bool) (reg : List (Nat × List (Nat × String)))
    (l : TraceLine) : List (Nat × List (Nat × String)) :=
  if isAccept l.typ then
    match alookup reg l.src_port with
    | none => reg ++ [(l.src_port, [(l.pid, l.comm)])]
    | some s =>
      if (l.pid, l.comm) ∈ s then reg
      else aupdate reg l.src_port (s ++ [(l.pid, l.comm)])
  else reg

/-- Modelled from the spec: the build phase, a single forward pass; the
per-port sets accumulate across the whole pass. -/
def buildRegistry (isAccept : String → Bool) (lines : List TraceLine) :
    List (Nat × List (Nat × String)) :=
  lines.foldl (buildStep isAccept) []

/-- Modelled from the spec: one step of the resolve phase.  A
connecting-side line looks up its dst_port: exactly one candidate emits
one correlated event; zero or more than one candidates emit one
diagnostic and drop the event; the stream continues either way. -/
def resolveStep (isConnect : String → Bool) (reg : List (Nat × List (Nat × String)))
    (acc : List ConnEvent × List PortDiag) (l : TraceLine) :
    List ConnEvent × List PortDiag :=
  if isConnect l.typ then
    match alookup reg l.dst_port with
    | some [d] =>
      (acc.1 ++ [⟨l.time, l.typ, l.pid, l.comm, l.src_port,
        d.1, d.2, l.dst_port, l.size, l.netns⟩], acc.2)
    | some [] => (acc.1, acc.2 ++ [.missing l])
    | none => (acc.1, acc.2 ++ [.missing l])
    | some cs => (acc.1, acc.2 ++ [.ambiguous l cs])
  else acc

/-- Modelled from the spec: the resolve phase, a single forward pass over
the same input, independent of build-phase position. -/
def resolveLines (isConnect : String → Bool) (reg : List (Nat × List (Nat × String)))
    (lines : List TraceLine) : List ConnEvent × List PortDiag :=
  lines.foldl (resolveStep isConnect reg) ([], [])

/-- Modelled from the spec: the whole Port Correlator: filter by
namespace, build the registry from the filtered lines, then resolve the
same filtered lines against it. -/
def correlate (isAccept isConnect : String → Bool) (nsOpt : Option Nat)
    (lines : List TraceLine) : List ConnEvent × List PortDiag :=
  resolveLines isConnect (buildRegistry isAccept (filterNs nsOpt lines))
    (filterNs nsOpt lines)

/-- The distinct identities the accept lines register, in first-seen
order (the order-insensitive content of the per-port set). -/
def registeredIdents (accepts : List TraceLine) : List (Nat × String) :=
  accepts.foldl
    (fun s l => if (l.pid, l.comm) ∈ s then s else s ++ [(l.pid, l.comm)]) []

theorem buildStep_skip (isAccept : String → Bool) (reg : List (Nat × List (Nat × String)))
    (l : TraceLine) (h : isAccept l.typ = false) : buildStep isAccept reg l = reg := by
  unfold buildStep
  rw [if_neg (by simp [h])]

theorem buildStep_accept_empty (isAccept : String → Bool) (a : TraceLine)
    (ha : isAccept a.typ = true) :
    buildStep isAccept [] a = [(a.src_port, [(a.pid, a.comm)])] := by
  unfold buildStep
  rw [if_pos ha]
  rfl

theorem buildStep_accept_single (isAccept : String → Bool) (P : Nat)
    (s : List (Nat × String)) (a : TraceLine)
    (ha : isAccept a.typ = true) (hp : a.src_port = P) :
    buildStep isAccept [(P, s)] a
      = [(P, if (a.pid, a.comm) ∈ s then s else s ++ [(a.pid, a.comm)])] := by
  unfold buildStep
  rw [if_pos ha, hp]
  rw [show alookup [(P, s)] P = some s from by rw [alookup_cons, if_pos rfl]]
  show (if (a.pid, a.comm) ∈ s then [(P, s)] else aupdate [(P, s)] P (s ++ [(a.pid, a.comm)]))
      = [(P, if (a.pid, a.comm) ∈ s then s else s ++ [(a.pid, a.comm)])]
  by_cases hm : (a.pid, a.comm) ∈ s
  · rw [if_pos hm, if_pos hm]
  · rw [if_neg hm, if_neg hm]
    show aupdate [(P, s)] P _ = _
    unfold aupdate
    rw [if_pos rfl]

theorem buildFold_single_port (isAccept : String → Bool) (P : Nat) :
    ∀ accepts : List TraceLine,
      (∀ l ∈ accepts, isAccept l.typ = true ∧ l.src_port = P) →
      ∀ s : List (Nat × String),
      accepts.foldl (buildStep isAccept) [(P, s)]
        = [(P, accepts.foldl
            (fun s l => if (l.pid, l.comm) ∈ s then s else s ++ [(l.pid, l.comm)]) s)] := by
  intro accepts
  induction accepts with
  | nil => intro _ s; rfl
  | cons a rest ih =>
    intro h s
    have ha := h a (by simp)
    simp only [List.foldl_cons]
    rw [buildStep_accept_single isAccept P s a ha.1 ha.2]
    exact ih (fun l hl => h l (by simp [hl])) _

theorem buildRegistry_cons_single_port (isAccept : String → Bool) (P : Nat)
    (a : TraceLine) (rest : List TraceLine)
    (h : ∀ l ∈ a :: rest, isAccept l.typ = true ∧ l.src_port = P) :
    buildRegistry isAccept (a :: rest) = [(P, registeredIdents (a :: rest))] := by
  have ha := h a (by simp)
  unfold buildRegistry registeredIdents
  simp only [List.foldl_cons]
  rw [buildStep_accept_empty isAccept a ha.1, ha.2]
  rw [show (if (a.pid, a.comm) ∈ ([] : List (Nat × String)) then ([] : List (Nat × String))
      else [] ++ [(a.pid, a.comm)]) = [(a.pid, a.comm)] from by simp]
  exact buildFold_single_port isAccept P rest (fun l hl => h l (by simp [hl])) _

theorem resolveFold_skip (isConnect : String → Bool)
    (reg : List (Nat × List (Nat × String))) :
    ∀ ls : List TraceLine, (∀ l ∈ ls, isConnect l.typ = false) →
    ∀ acc, ls.foldl (resolveStep isConnect reg) acc = acc := by
  intro ls
  induction ls with
  | nil => intro _ acc; rfl
  | cons l rest ih =>
    intro h acc
    simp only [List.foldl_cons]
    rw [show resolveStep isConnect reg acc l = acc from by
      unfold resolveStep
      rw [if_neg (by simp [h l (by simp)])]]
    exact ih (fun x hx => h x (by simp [hx])) acc

theorem correlate_single_connect (isAccept isConnect : String → Bool)
    (accepts : List TraceLine) (c : TraceLine)
    (hA1 : ∀ l ∈ accepts, isConnect l.typ = false)
    (hCa : isAccept c.typ = false) :
    correlate isAccept isConnect none (accepts ++ [c])
      = resolveStep isConnect (buildRegistry isAccept accepts) ([], []) c := by
  unfold correlate
  simp only [filterNs]
  unfold resolveLines buildRegistry
  rw [List.foldl_append, List.foldl_append]
  simp only [List.foldl_cons, List.foldl_nil]
  rw [buildStep_skip isAccept _ c hCa]
  rw [resolveFold_skip isConnect _ accepts hA1 ([], [])]

/-- Claim C5 (modelled from the spec, see section 4.3): N accept lines
registering identities for port P followed by one connect line whose
destination port is P yield exactly one correlated event pairing the
connect source identity with the registered destination identity and zero
diagnostics when exactly one identity is registered; and zero events with
exactly one non-fatal diagnostic when zero identities or more than one
identity are registered. -/
theorem claim_C5_thm (isAccept isConnect : String → Bool)
    (accepts : List TraceLine) (c : TraceLine) (P : Nat)
    (hA : ∀ l ∈ accepts, isAccept l.typ = true ∧ isConnect l.typ = false ∧ l.src_port = P)
    (hCa : isAccept c.typ = false) (hCc : isConnect c.typ = true)
    (hCp : c.dst_port = P) :
    (∀ d : Nat × String, registeredIdents accepts = [d] →
      correlate isAccept isConnect none (accepts ++ [c])
        = ([⟨c.time, c.typ, c.pid, c.comm, c.src_port,
            d.1, d.2, c.dst_port, c.size, c.netns⟩], [])) ∧
    ((registeredIdents accepts).length ≠ 1 →
      (correlate isAccept isConnect none (accepts ++ [c])).1 = [] ∧
      (correlate isAccept isConnect none (accepts ++ [c])).2.length = 1) := by
  have hA1 : ∀ l ∈ accepts, isConnect l.typ = false := fun l hl => (hA l hl).2.1
  have hA2 : ∀ l ∈ accepts, isAccept l.typ = true ∧ l.src_port = P :=
    fun l hl => ⟨(hA l hl).1, (hA l hl).2.2⟩
  have hcor := correlate_single_connect isAccept isConnect accepts c hA1 hCa
  constructor
  · intro d hd
    rw [hcor]
    cases accepts with
    | nil => simp [registeredIdents] at hd
    | cons a rest =>
      rw [buildRegistry_cons_single_port isAccept P a rest hA2]
      unfold resolveStep
      rw [if_pos hCc, hCp]
      rw [show alookup [(P, registeredIdents (a :: rest))] P
          = some (registeredIdents (a :: rest)) from by rw [alookup_cons, if_pos rfl]]
      rw [hd]
      rfl
  · intro hlen
    rw [hcor]
    cases accepts with
    | nil =>
      unfold buildRegistry
      unfold resolveStep
      rw [if_pos hCc]
      exact ⟨rfl, rfl⟩
    | cons a rest =>
      rw [buildRegistry_cons_single_port isAccept P a rest hA2]
      unfold resolveStep
      rw [if_pos hCc, hCp]
      rw [show alookup [(P, registeredIdents (a :: rest))] P
          = some (registeredIdents (a :: rest)) from by rw [alookup_cons, if_pos rfl]]
      rcases hR : registeredIdents (a :: rest) with _ | ⟨x, _ | ⟨y, zs⟩⟩
      · exact ⟨rfl, rfl⟩
      · rw [hR] at hlen
        simp at hlen
      · exact ⟨rfl, rfl⟩

/-- Claim C5, witness: one accept line for port 3 then one connect line
to port 3 yields exactly the one paired event and no diagnostics. -/
theorem claim_C5_witness :
    correlate (fun t => t == "accept") (fun t => t == "connect") none
        [⟨1, "accept", 2, "c1", 4, "127.", "127.", 3, 4, 1, 5⟩,
         ⟨6, "connect", 7, "c2", 4, "127.", "127.", 4, 3, 1, 5⟩]
      = ([⟨6, "connect", 7, "c2", 4, 2, "c1", 3, 1, 5⟩], []) := by
  have h := (claim_C5_thm (fun t => t == "accept") (fun t => t == "connect")
    [⟨1, "accept", 2, "c1", 4, "127.", "127.", 3, 4, 1, 5⟩]
    ⟨6, "connect", 7, "c2", 4, "127.", "127.", 4, 3, 1, 5⟩ 3
    (by decide) (by decide) (by decide) (by decide)).1 (2, "c1") (by decide)
  exact h

/-- Whether the second character sequence starts with the first. -/
def startsWithChars : List Char → List Char → Bool
  | _, [] => true
  | [], _ :: _ => false
  | a :: as, b :: bs => a == b && startsWithChars as bs

/-- Whether the needle occurs as a contiguous run inside the haystack. -/
def occursChars (needle : List Char) : List Char → Bool
  | [] => needle.isEmpty
  | c :: cs => startsWithChars (c :: cs) needle || occursChars needle cs

/-- Whether one string contains another (the in-operator of Python used on
captured stderr). -/
def strOccurs (needle hay : String) : Bool := occursChars needle.data hay.data

/-- Modelled from the spec: the graceful-interruption marker the
supervisor scans captured stderr for; the tests exhibit it as the
KeyboardInterrupt trace of the interrupted tool. -/
def gracefulMarker : String := "KeyboardInterrupt"

/-- Modelled from the spec: the explicit-error marker; the tests exhibit
it as ERROR. -/
def errorMarker : String := "ERROR"

/-- The classified outcome of one supervised run: the graceful flag and
the surfaced diagnostic, if any. -/
structure RunOutcome where
  graceful : Bool
  diagnostic : Option String
deriving DecidableEq

/-- Modelled from the spec: the outcome classification of captured
stderr.  Presence of the graceful marker without the error marker means
graceful; presence of the error marker means not graceful and the full
stderr text is surfaced as a diagnostic (spec section 4.1; exercised by
test_collect_normal and test_collect_error). -/
def classifyStderr (stderr : String) : RunOutcome :=
  { graceful := strOccurs gracefulMarker stderr && !(strOccurs errorMarker stderr)
    diagnostic := if strOccurs errorMarker stderr then some stderr else none }

/-- Claim C9 (modelled from the spec): for every captured stderr text, the
graceful marker without the error marker classifies the run as graceful
with no diagnostic surfaced, and the error marker classifies the run as
not graceful with the full stderr text surfaced. -/
theorem claim_C9_thm (stderr : String) :
    (strOccurs gracefulMarker stderr = true → strOccurs errorMarker stderr = false →
      (classifyStderr stderr).graceful = true ∧
      (classifyStderr stderr).diagnostic = none) ∧
    (strOccurs errorMarker stderr = true →
      (classifyStderr stderr).graceful = false ∧
      (classifyStderr stderr).diagnostic = some stderr) := by
  constructor
  · intro hg he
    unfold classifyStderr
    simp [hg, he]
  · intro he
    unfold classifyStderr
    simp [he]

/-- Claim C9, witness at the stderr texts of the two collect tests: the
KeyboardInterrupt-only text is graceful with no diagnostic; the text with
a trailing ERROR is not graceful and surfaces the whole text. -/
theorem claim_C9_witness :
    ((classifyStderr "stacktrace etc.\nKeyboardInterrupt\n").graceful = true ∧
     (classifyStderr "stacktrace etc.\nKeyboardInterrupt\n").diagnostic = none) ∧
    ((classifyStderr "stacktrace etc.\nKeyboardInterrupt\nERROR").graceful = false ∧
     (classifyStderr "stacktrace etc.\nKeyboardInterrupt\nERROR").diagnostic
        = some "stacktrace etc.\nKeyboardInterrupt\nERROR") :=
  ⟨(claim_C9_thm "stacktrace etc.\nKeyboardInterrupt\n").1 (by decide) (by decide),
   (claim_C9_thm "stacktrace etc.\nKeyboardInterrupt\nERROR").2 (by decide)⟩

end Marple
